import Mathlib

/-!
# Verification of the non-empty iterator library

This development formalizes the `non-empty-iter` Rust crate over a shallow
embedding. The crate wraps ordinary (lazy, possibly empty) iterators in types
carrying a non-emptiness guarantee; every adapter's `into_iter` delegates to a
standard iterator combinator on the downgraded underlying iterator.

The embedding has two layers:

* a *list layer*: the drain (the full sequence of elements produced by
  repeatedly pulling `next` after downgrading with `into_iter`) of a finite
  producer is a `List`, and each adapter or consuming operation is the
  corresponding list transformation of the drain, following the semantics of
  the standard-library combinator the source delegates to
  (`src/non_empty.rs`, `src/chain.rs`, `src/map.rs`, ...);
* a *sequence layer* over `Stream'.Seq` (possibly infinite sequences) used
  for the structural-invariant claim, since the crate's `repeat`,
  `repeat_with`, `cycle` and `successors` sources produce infinite iterators.

Fallible operations return `Option`; the crate's `unwrap_unchecked` calls on
internal options are modelled by keeping the internal `Option` visible and
proving it is always `some`.
-/

namespace NonEmptyIter

universe u v

variable {α : Type u} {β : Type v}

/-- One pull of the ordinary iterator protocol on a drained sequence:
`next` returns the first element and the remaining drain, or `none` when
the iterator is exhausted. -/
def next (l : List α) : Option (α × List α) :=
  match l with
  | [] => none
  | x :: xs => some (x, xs)

/-- `NonEmptyIterator::consume` (src/non_empty.rs:39-46): downgrades with
`into_iter` and pulls exactly once with `next().unwrap_unchecked()`. The
unchecked unwrap is modelled by returning the internal `Option`. -/
def consume (l : List α) : Option (α × List α) :=
  next l

/-- `Iterator::reduce` on the downgraded iterator: folds all items into one,
starting from the first item, applying the function left to right. This is
the internal possibly-absent computation inside `NonEmptyIterator::reduce`
(src/non_empty.rs:222-231) before `unwrap_unchecked`. -/
def iterReduce (f : α → α → α) (l : List α) : Option α :=
  match l with
  | [] => none
  | x :: xs => some (xs.foldl f x)

/-- `Iterator::max` on the downgraded iterator: reduce keeping the later
item on ties (std `cmp::max_by` returns its second argument unless the
first compares strictly greater). Internal option of
`NonEmptyIterator::max` (src/non_empty.rs:362-371). -/
def iterMax [LinearOrder α] (l : List α) : Option α :=
  iterReduce (fun a b => if b < a then a else b) l

/-- `Iterator::min` on the downgraded iterator: reduce keeping the earlier
item on ties (std `cmp::min_by` returns its first argument unless it
compares strictly greater than the second). Internal option of
`NonEmptyIterator::min` (src/non_empty.rs:419-428). -/
def iterMin [LinearOrder α] (l : List α) : Option α :=
  iterReduce (fun a b => if b < a then b else a) l

/-- `Iterator::last` on the downgraded iterator: the final element, if any.
Internal option of `NonEmptyIterator::last` (src/non_empty.rs:522-528). -/
def iterLast (l : List α) : Option α :=
  l.getLast?

/-- `NonEmptyIterator::nth` (src/non_empty.rs:476-478): delegates to
`Iterator::nth(n.get())` on the downgraded iterator, which skips `n`
elements and returns the element at zero-based index `n`, if present.
The crate passes `n : Size`, a non-zero count. -/
def nth (l : List α) (n : ℕ) : Option α :=
  l[n]?

/-- Drain of `Take` (src/take.rs:30-32): `into_iter().take(count.get())`,
the first `count` elements. `count : Size` is non-zero. -/
def takeDrain (l : List α) (count : ℕ) : List α :=
  l.take count

/-- Drain of `StepBy` (src/step_by.rs:34-36): `into_iter().step_by(step.get())`
yields the elements at indices `0, step, 2*step, ...`; after yielding an
element the combinator advances past the next `step - 1` elements.
`step : Size` is non-zero. -/
def stepByDrain (step : ℕ) (l : List α) : List α :=
  match l with
  | [] => []
  | x :: xs => x :: stepByDrain step (xs.drop (step - 1))
termination_by l.length
decreasing_by
  simp only [List.length_drop, List.length_cons]
  omega

/-- Drain of `Zip` (src/zip.rs:40-42): `iter::zip(first, second)` yields
pairs positionally and stops as soon as one input is exhausted. -/
def zipDrain (l : List α) (m : List β) : List (α × β) :=
  l.zip m

/-- Drain of `Chain` (src/chain.rs:44-46): the non-empty side followed by
the possibly-empty side. -/
def chainDrain (l m : List α) : List α :=
  l ++ m

/-- Drain of `Map` (src/map.rs:35-37): each item transformed by the
function. -/
def mapDrain (f : α → β) (l : List α) : List β :=
  l.map f

/-- Drain of `FlatMap` (src/flat_map.rs:38-40): `into_iter().flat_map(f)`,
each outer item replaced in place by the full drain of the iterator the
function returns for it. -/
def flatMapDrain (f : α → List β) (l : List α) : List β :=
  l.flatMap f

/-- `NonEmptyIterator::peeked` (src/non_empty.rs:92-96): `consume` the
iterator and wrap the extracted item together with the remaining iterator
in `Peeked`. The internal `Option` of the underlying `consume` is kept. -/
def peeked (l : List α) : Option (α × List α) :=
  consume l

/-- Drain of `Peeked` (src/peeked.rs:47-49): `iter::once(item).chain(rest)`,
the stored item followed by the remaining iterator. -/
def peekedDrain (p : α × List α) : List α :=
  p.1 :: p.2

/-- `TryIntoNonEmptyIterator::try_into_non_empty_iter`
(src/non_empty.rs:876-883): wrap the iterator in a peekable lookahead,
`peek` without consuming, report `none` if nothing is there, otherwise
rewrap the same peekable iterator via `NonEmptyAdapter::new`. The result
is modelled by the drain of the returned adapter, which is the drain of
the peekable wrapper: the peeked element stays at the front. -/
def tryIntoNonEmptyIter (l : List α) : Option (List α) :=
  match l.head? with
  | none => none
  | some _ => some l

/-- `stepByDrain 1` keeps every element: after each yield it advances past
`1 - 1 = 0` elements. -/
theorem stepByDrain_one (l : List α) : stepByDrain 1 l = l := by
  induction l with
  | nil => rw [stepByDrain]
  | cons x xs ih =>
    rw [stepByDrain]
    simp [ih]

/-- C2: for a non-empty producer with elements `e :: rest`, `consume`
returns the first element `e` together with a remainder draining to
exactly `rest`, pulling exactly once. -/
theorem consume_first_and_rest (e : α) (rest : List α) :
    consume (e :: rest) = some (e, rest) :=
  rfl

/-- C3: the checked conversion reports absence exactly on the empty
producer; on a non-empty producer it reports presence, and the produced
non-empty value drains to exactly the original elements (the peeked first
element is neither lost nor duplicated). -/
theorem try_into_round_trip (x : α) (xs : List α) :
    tryIntoNonEmptyIter ([] : List α) = none ∧
    tryIntoNonEmptyIter (x :: xs) = some (x :: xs) :=
  ⟨rfl, rfl⟩

/-- C4: on any non-empty producer the internal options of `max`, `min`,
`last` and `reduce` are always `some`, so the `unwrap_unchecked` asserting
presence is sound; on a single-element producer each returns that element
unchanged. -/
theorem aggregates_total [LinearOrder α] (x : α) (xs : List α) (f : α → α → α) :
    (iterMax (x :: xs)).isSome ∧ (iterMin (x :: xs)).isSome ∧
    (iterLast (x :: xs)).isSome ∧ (iterReduce f (x :: xs)).isSome ∧
    iterMax [x] = some x ∧ iterMin [x] = some x ∧
    iterLast [x] = some x ∧ iterReduce f [x] = some x := by
  refine ⟨rfl, rfl, ?_, rfl, rfl, rfl, rfl, rfl⟩
  simp [iterLast]

theorem aggregates_total_witness :
    (iterMax [5, 3]).isSome ∧ (iterMin [5, 3]).isSome ∧
    (iterLast [5, 3]).isSome ∧ (iterReduce Nat.add [5, 3]).isSome ∧
    iterMax [5] = some 5 ∧ iterMin [5] = some 5 ∧
    iterLast [5] = some 5 ∧ iterReduce Nat.add [5] = some 5 :=
  aggregates_total 5 [3] Nat.add

/-- C5: zip of non-empty producers of lengths `m` and `n` yields exactly
`min m n` pairs, and the `i`-th pair is the `i`-th element of the first
paired with the `i`-th element of the second. -/
theorem zip_length_min_positional (s : List α) (t : List β)
    (hs : s ≠ []) (ht : t ≠ []) (i : ℕ) (hi : i < s.length) (hj : i < t.length) :
    (zipDrain s t).length = min s.length t.length ∧
    (zipDrain s t)[i]? = some (s[i], t[i]) := by
  refine ⟨List.length_zip s t, ?_⟩
  rw [zipDrain, List.getElem?_zip_eq_some]
  exact ⟨List.getElem?_eq_getElem hi, List.getElem?_eq_getElem hj⟩

theorem zip_length_min_positional_witness :
    (zipDrain [1, 2] [5]).length = min (List.length [1, 2]) (List.length [5]) ∧
    (zipDrain [1, 2] [5])[0]? = some (([1, 2] : List ℕ)[0], ([5] : List ℕ)[0]) :=
  zip_length_min_positional [1, 2] [5] (by decide) (by decide) 0 (by decide) (by decide)

/-- C6 counterexample: zip does not keep yielding pairs while *either*
input has elements. With inputs draining to `[10]` and `[20, 30]` (both
non-empty), after the single pair the second input still holds the element
`30` at index `1`, yet the zip drain is already exhausted. -/
theorem zip_not_while_either :
    (zipDrain [10] [20, 30]).length = 1 ∧ List.length [20, 30] = 2 ∧
    (zipDrain [10] [20, 30])[1]? = none := by
  decide

/-- C6 amended: zip of two non-empty producers keeps yielding pairs for as
long as *both* of its inputs still have elements: the pair at index `i`
exists exactly when both inputs have an element at index `i`. -/
theorem zip_pairs_while_both (s : List α) (t : List β) (i : ℕ) :
    ((zipDrain s t)[i]?).isSome ↔ i < s.length ∧ i < t.length := by
  rw [zipDrain, Option.isSome_iff_ne_none, ne_eq, List.getElem?_eq_none_iff,
    not_le, List.length_zip, Nat.lt_min]

/-- C7: `take` with count `1` on a non-empty producer yields exactly its
first element, and `step_by` with step `1` yields the full original
sequence unchanged in order. -/
theorem take_one_step_one (x : α) (xs : List α) :
    takeDrain (x :: xs) 1 = [x] ∧ stepByDrain 1 (x :: xs) = x :: xs :=
  ⟨rfl, stepByDrain_one (x :: xs)⟩

/-- C8: `flat_map` over `[a, b]` where the function's iterators drain to
`[1, 2]` and `[3]` drains to exactly `[1, 2, 3]`: each outer element's
sub-sequence is yielded in full before the next outer element's. -/
theorem flat_map_subsequence (a b : α) (f : α → List ℕ)
    (ha : f a = [1, 2]) (hb : f b = [3]) :
    flatMapDrain f [a, b] = [1, 2, 3] := by
  simp [flatMapDrain, ha, hb]

theorem flat_map_subsequence_witness :
    flatMapDrain (fun n => if n = 0 then [1, 2] else [3]) [0, 1] = [1, 2, 3] :=
  flat_map_subsequence 0 1 _ (by decide) (by decide)

/-- C9: `peeked` on a producer with elements `e :: rest` stores `e` with a
remainder draining to `rest`, and draining the `Peeked` wrapper itself
yields `e :: rest`: the round-trip preserves the element sequence. -/
theorem peeked_round_trip (e : α) (rest : List α) :
    peeked (e :: rest) = some (e, rest) ∧ peekedDrain (e, rest) = e :: rest :=
  ⟨rfl, rfl⟩

/-- C10: for any non-zero count `n`, `nth` skips the first `n` elements and
returns the element at zero-based index `n` when `n` is in bounds, and
`none` otherwise; since `n ≥ 1`, the element at index `0` is never the one
returned. -/
theorem nth_skips_first (l : List α) (n : ℕ) (h : 0 < n) :
    nth l n = if hlt : n < l.length then some (l[n]) else none := by
  rw [nth]
  split
  · exact List.getElem?_eq_getElem ‹_›
  · exact List.getElem?_eq_none (by omega)

theorem nth_skips_first_witness : nth [10, 20, 30] 2 = some 30 :=
  (nth_skips_first [10, 20, 30] 2 (by decide)).trans (by decide)

end NonEmptyIter

/-!
## Sequence layer: drains of possibly infinite iterators

The crate's `repeat`, `repeat_with`, `cycle` and `successors` sources produce
infinite iterators, so the drain of a general adapter chain is a possibly
infinite sequence, modelled by `Stream'.Seq`. Each definition below is the
drain of the standard-library combinator that the corresponding adapter's
`into_iter` delegates to.
-/

namespace NonEmptyIter

/-- Drain of `iter::once(value)` (src/once.rs:41-43): exactly one element.
Also the drain of `iter::once_with(function)` with the closure modelled by
the value it produces. -/
def seqOnce (value : α) : Stream'.Seq α :=
  Stream'.Seq.cons value Stream'.Seq.nil

/-- Drain of `iter::repeat(item)` (src/repeat.rs:36-38): the item forever. -/
def seqRepeat (item : α) : Stream'.Seq α :=
  Stream'.Seq.ofStream (Stream'.const item)

/-- Drain of `iter::repeat_with(function)` (src/repeat.rs:69-71): the
stateful `FnMut` closure is modelled by the function of the call index;
the drain yields its values forever. -/
def seqRepeatWith (function : ℕ → α) : Stream'.Seq α :=
  Stream'.Seq.ofStream function

/-- Drain of `iter::successors(Some(initial), succ)` (src/successors.rs:40-42):
the current item is yielded and the next state computed from it, until the
successor function reports `none`. -/
def seqSuccessors (initial : α) (succ : α → Option α) : Stream'.Seq α :=
  Stream'.Seq.corec (fun state => state.map fun item => (item, succ item)) (some initial)

/-- Drain of `Iterator::cycle` (src/cycle.rs:38-40): std `Cycle` keeps a
clone of the original iterator; `next` pulls from the current iterator and,
when it is exhausted, restarts from a fresh clone of the original (an
empty original ends the drain). -/
def seqCycle (s : Stream'.Seq α) : Stream'.Seq α :=
  Stream'.Seq.corec
    (fun p : Stream'.Seq α × Stream'.Seq α =>
      match Stream'.Seq.destruct p.1 with
      | some (item, rest) => some (item, (rest, p.2))
      | none =>
        match Stream'.Seq.destruct p.2 with
        | some (item, rest) => some (item, (rest, p.2))
        | none => none)
    (s, s)

/-- Drain of `Iterator::step_by(step)` (src/step_by.rs:34-36): the elements
at indices `0, step, 2*step, ...` of the underlying drain. -/
def seqStepBy (step : ℕ) (s : Stream'.Seq α) : Stream'.Seq α :=
  ⟨fun n => s.get? (n * step), fun h =>
    s.le_stable (Nat.mul_le_mul_right step (Nat.le_succ _)) h⟩

/-- Drain of `Iterator::flat_map(f)` (src/flat_map.rs:38-40): each outer
element is replaced in place by the full drain of the sequence produced
for it. The crate's `flat_map` and `flatten` bound the produced values by
`IntoNonEmptyIterator`, so every inner sequence is non-empty; on an empty
inner sequence (unreachable through the crate's API, where std would scan
further outer elements) the modelled drain ends. -/
def seqFlatMap (f : α → Stream'.Seq β) (s : Stream'.Seq α) : Stream'.Seq β :=
  Stream'.Seq.corec
    (fun p : Stream'.Seq β × Stream'.Seq α =>
      match Stream'.Seq.destruct p.1 with
      | some (item, cur) => some (item, (cur, p.2))
      | none =>
        match Stream'.Seq.destruct p.2 with
        | some (outer, rest) =>
          match Stream'.Seq.destruct (f outer) with
          | some (item, cur) => some (item, (cur, rest))
          | none => none
        | none => none)
    (Stream'.Seq.nil, s)

/-- Drain of `Iterator::take(count)` (src/take.rs:30-32): the first `count`
elements of the underlying drain. -/
def seqTake (count : ℕ) (s : Stream'.Seq α) : Stream'.Seq α :=
  Stream'.Seq.ofList (s.take count)

/-- Drain of `Iterator::enumerate` (src/enumerate.rs:31-33): each element
paired with its index. -/
def seqEnumerate (s : Stream'.Seq α) : Stream'.Seq (ℕ × α) :=
  Stream'.Seq.zip Stream'.Seq.nats s

/-- Iterator chains built exclusively through the crate's safe structural
constructors (adapter methods and free functions), never through
`NonEmptyAdapter::new`. One constructor per source adapter.

The `Bool` index records whether the downgraded iterator is double-ended
(`DoubleEndedIterator`), which gates `rev` exactly as the Rust bound
`Self::IntoIter: DoubleEndedIterator` does. Constructors whose std
`IntoIter` is unconditionally double-ended carry `true`; constructors
whose double-endedness is absent (`RepeatWith`, `Successors`, `Cycle`) or
conditional on the external `ExactSizeIterator` machinery (`Enumerate`,
`Zip`, `Take`, `StepBy`, std `Chain`, `FlatMap`, `Flatten`, `Peeked`) are
conservatively indexed `false`, so the grammar applies `rev` only where
double-endedness is structural.

Closure-valued parameters (`FnOnce`/`FnMut`) are modelled by the values
they produce; `chain`'s second argument is an arbitrary possibly-empty
external iterator, modelled by its drain; `flat_map`/`flatten` require the
outer items to convert into non-empty iterators, modelled by a function
from items to chains. -/
inductive NEChain : Bool → Type → Type 1 where
  | once {γ : Type} (value : γ) : NEChain true γ
  | onceWith {γ : Type} (value : γ) : NEChain true γ
  | repeat {γ : Type} (item : γ) : NEChain true γ
  | repeatWith {γ : Type} (function : ℕ → γ) : NEChain false γ
  | repeatN {γ : Type} (item : γ) (count : ℕ) (h : 0 < count) : NEChain true γ
  | successors {γ : Type} (initial : γ) (succ : γ → Option γ) : NEChain false γ
  | chain {de : Bool} {γ : Type} (c : NEChain de γ) (other : Stream'.Seq γ) :
      NEChain false γ
  | map {de : Bool} {γ δ : Type} (c : NEChain de γ) (f : γ → δ) : NEChain de δ
  | cloned {de : Bool} {γ : Type} (c : NEChain de γ) : NEChain de γ
  | copied {de : Bool} {γ : Type} (c : NEChain de γ) : NEChain de γ
  | enumerate {de : Bool} {γ : Type} (c : NEChain de γ) : NEChain false (ℕ × γ)
  | zip {de de' : Bool} {γ δ : Type} (c : NEChain de γ) (d : NEChain de' δ) :
      NEChain false (γ × δ)
  | take {de : Bool} {γ : Type} (c : NEChain de γ) (count : ℕ) (h : 0 < count) :
      NEChain false γ
  | stepBy {de : Bool} {γ : Type} (c : NEChain de γ) (step : ℕ) (h : 0 < step) :
      NEChain false γ
  | cycle {de : Bool} {γ : Type} (c : NEChain de γ) : NEChain false γ
  | rev {γ : Type} (c : NEChain true γ) : NEChain true γ
  | fuse {de : Bool} {γ : Type} (c : NEChain de γ) : NEChain de γ
  | inspect {de : Bool} {γ : Type} (c : NEChain de γ) : NEChain de γ
  | flatMap {de de' : Bool} {γ δ : Type} (c : NEChain de γ) (f : γ → NEChain de' δ) :
      NEChain false δ
  | flatten {de de' : Bool} {γ δ : Type} (c : NEChain de γ) (f : γ → NEChain de' δ) :
      NEChain false δ
  | peeked {de : Bool} {γ : Type} (c : NEChain de γ) : NEChain false γ

/-- The two drains of a chain: the forward drain (what downgrading with
`into_iter` and repeatedly calling `next` yields) and the backward drain
(what repeatedly calling `next_back` yields, when the chain is
double-ended). `cloned`/`copied` duplicate values, so in this value-level
model their drains coincide with the underlying drains; `fuse` does not
change the drain (exhaustion is already final in a drain); `inspect` only
runs a side-effecting closure on each item and yields it unchanged;
`peeked` pulls the first item and re-chains it in front, leaving the drain
unchanged.

For the double-ended constructors the backward drain follows the std
`next_back` implementations (`Once`, `OnceWith`, `Repeat` and `RepeatN`
yield the same items backward; `Map`, `Cloned`, `Copied`, `Inspect` and
`Fuse` delegate to the inner `next_back`; `Rev` swaps the two drains).
For constructors indexed `false` the backward component is a placeholder
(set to the forward drain); it is unreachable through `rev`, which
requires the `true` index. -/
def drains : {de : Bool} → {γ : Type} → NEChain de γ → Stream'.Seq γ × Stream'.Seq γ
  | _, _, .once v => (seqOnce v, seqOnce v)
  | _, _, .onceWith v => (seqOnce v, seqOnce v)
  | _, _, .repeat x => (seqRepeat x, seqRepeat x)
  | _, _, .repeatWith g => (seqRepeatWith g, seqRepeatWith g)
  | _, _, .repeatN x n _ =>
      (Stream'.Seq.ofList (List.replicate n x), Stream'.Seq.ofList (List.replicate n x))
  | _, _, .successors a f => (seqSuccessors a f, seqSuccessors a f)
  | _, _, .chain c t => ((drains c).1.append t, (drains c).1.append t)
  | _, _, .map c f => ((drains c).1.map f, (drains c).2.map f)
  | _, _, .cloned c => drains c
  | _, _, .copied c => drains c
  | _, _, .enumerate c => (seqEnumerate (drains c).1, seqEnumerate (drains c).1)
  | _, _, .zip c d =>
      (Stream'.Seq.zip (drains c).1 (drains d).1, Stream'.Seq.zip (drains c).1 (drains d).1)
  | _, _, .take c n _ => (seqTake n (drains c).1, seqTake n (drains c).1)
  | _, _, .stepBy c k _ => (seqStepBy k (drains c).1, seqStepBy k (drains c).1)
  | _, _, .cycle c => (seqCycle (drains c).1, seqCycle (drains c).1)
  | _, _, .rev c => ((drains c).2, (drains c).1)
  | _, _, .fuse c => drains c
  | _, _, .inspect c => drains c
  | _, _, .flatMap c f =>
      (seqFlatMap (fun a => (drains (f a)).1) (drains c).1,
        seqFlatMap (fun a => (drains (f a)).1) (drains c).1)
  | _, _, .flatten c f =>
      (seqFlatMap (fun a => (drains (f a)).1) (drains c).1,
        seqFlatMap (fun a => (drains (f a)).1) (drains c).1)
  | _, _, .peeked c => ((drains c).1, (drains c).1)

theorem cons_ne_nil (a : α) (s : Stream'.Seq α) :
    Stream'.Seq.cons a s ≠ Stream'.Seq.nil := by
  intro h
  have h0 := congrArg (fun t => Stream'.Seq.get? t 0) h
  simp at h0

theorem ne_nil_of_destruct_ne_none {s : Stream'.Seq α} (h : s.destruct ≠ none) :
    s ≠ Stream'.Seq.nil := by
  intro hn
  rw [hn, Stream'.Seq.destruct_nil] at h
  exact h rfl

theorem eq_cons_of_ne_nil {s : Stream'.Seq α} (h : s ≠ Stream'.Seq.nil) :
    ∃ a s', s = Stream'.Seq.cons a s' := by
  cases hd : s.destruct with
  | none => exact absurd (Stream'.Seq.destruct_eq_nil hd) h
  | some v => exact ⟨v.1, v.2, Stream'.Seq.destruct_eq_cons hd⟩

theorem ne_nil_iff_get?_zero {s : Stream'.Seq α} :
    s ≠ Stream'.Seq.nil ↔ s.get? 0 ≠ none := by
  constructor
  · intro h h0
    exact h (Stream'.Seq.ext fun n => by
      rw [Stream'.Seq.get?_nil]
      exact s.le_stable (Nat.zero_le n) h0)
  · intro h0 hn
    rw [hn] at h0
    exact h0 (Stream'.Seq.get?_nil 0)

theorem seqRepeat_ne_nil (x : α) : seqRepeat x ≠ Stream'.Seq.nil :=
  ne_nil_iff_get?_zero.mpr (by
    show some x ≠ none
    simp)

theorem seqRepeatWith_ne_nil (g : ℕ → α) : seqRepeatWith g ≠ Stream'.Seq.nil :=
  ne_nil_iff_get?_zero.mpr (by
    show some (g 0) ≠ none
    simp)

theorem seqSuccessors_ne_nil (a : α) (f : α → Option α) :
    seqSuccessors a f ≠ Stream'.Seq.nil := by
  apply ne_nil_of_destruct_ne_none
  rw [seqSuccessors, Stream'.Seq.corec_eq]
  exact fun h => Option.noConfusion h

theorem seqCycle_ne_nil {s : Stream'.Seq α} (hs : s ≠ Stream'.Seq.nil) :
    seqCycle s ≠ Stream'.Seq.nil := by
  obtain ⟨a, s', rfl⟩ := eq_cons_of_ne_nil hs
  apply ne_nil_of_destruct_ne_none
  rw [seqCycle, Stream'.Seq.corec_eq]
  simp

theorem seqStepBy_ne_nil {s : Stream'.Seq α} (k : ℕ) (hs : s ≠ Stream'.Seq.nil) :
    seqStepBy k s ≠ Stream'.Seq.nil := by
  rw [ne_nil_iff_get?_zero] at hs ⊢
  show s.get? (0 * k) ≠ none
  rwa [Nat.zero_mul]

theorem seqFlatMap_ne_nil {f : α → Stream'.Seq β} {s : Stream'.Seq α}
    (hs : s ≠ Stream'.Seq.nil) (hf : ∀ a, f a ≠ Stream'.Seq.nil) :
    seqFlatMap f s ≠ Stream'.Seq.nil := by
  obtain ⟨a, s', rfl⟩ := eq_cons_of_ne_nil hs
  obtain ⟨b, t, hfa⟩ := eq_cons_of_ne_nil (hf a)
  apply ne_nil_of_destruct_ne_none
  rw [seqFlatMap, Stream'.Seq.corec_eq]
  simp [hfa]

theorem seqTake_ne_nil {s : Stream'.Seq α} {n : ℕ} (hn : 0 < n)
    (hs : s ≠ Stream'.Seq.nil) : seqTake n s ≠ Stream'.Seq.nil := by
  rw [ne_nil_iff_get?_zero] at hs ⊢
  rw [seqTake]
  intro h
  rw [Stream'.Seq.ofList_get, List.get?_eq_getElem?, Stream'.Seq.getElem?_take,
    if_pos hn] at h
  exact hs h

theorem seqEnumerate_ne_nil {s : Stream'.Seq α} (hs : s ≠ Stream'.Seq.nil) :
    seqEnumerate s ≠ Stream'.Seq.nil := by
  rw [ne_nil_iff_get?_zero] at hs ⊢
  rw [seqEnumerate, Stream'.Seq.get?_zip, Stream'.Seq.nats_get?]
  cases h0 : s.get? 0 with
  | none => exact absurd h0 hs
  | some a => simp [Option.map₂]

theorem seqZip_ne_nil {s : Stream'.Seq α} {t : Stream'.Seq β}
    (hs : s ≠ Stream'.Seq.nil) (ht : t ≠ Stream'.Seq.nil) :
    Stream'.Seq.zip s t ≠ Stream'.Seq.nil := by
  rw [ne_nil_iff_get?_zero] at hs ht ⊢
  rw [Stream'.Seq.get?_zip]
  cases h0 : s.get? 0 with
  | none => exact absurd h0 hs
  | some a =>
    cases h1 : t.get? 0 with
    | none => exact absurd h1 ht
    | some b => simp [Option.map₂]

/-- Both drains of every chain built through the safe structural
constructors are non-empty. -/
theorem drains_ne_nil : ∀ {de : Bool} {γ : Type} (c : NEChain de γ),
    (drains c).1 ≠ Stream'.Seq.nil ∧ (drains c).2 ≠ Stream'.Seq.nil := by
  intro de γ c
  induction c with
  | once v => exact ⟨cons_ne_nil v _, cons_ne_nil v _⟩
  | onceWith v => exact ⟨cons_ne_nil v _, cons_ne_nil v _⟩
  | «repeat» x => exact ⟨seqRepeat_ne_nil x, seqRepeat_ne_nil x⟩
  | repeatWith g => exact ⟨seqRepeatWith_ne_nil g, seqRepeatWith_ne_nil g⟩
  | repeatN x n h =>
    obtain ⟨m, rfl⟩ : ∃ m, n = m + 1 := ⟨n - 1, by omega⟩
    rw [drains]
    rw [List.replicate_succ, Stream'.Seq.ofList_cons]
    exact ⟨cons_ne_nil x _, cons_ne_nil x _⟩
  | successors a f => exact ⟨seqSuccessors_ne_nil a f, seqSuccessors_ne_nil a f⟩
  | chain c t ih =>
    obtain ⟨a, s', hs⟩ := eq_cons_of_ne_nil ih.1
    rw [drains, hs, Stream'.Seq.cons_append]
    exact ⟨cons_ne_nil a _, cons_ne_nil a _⟩
  | map c f ih =>
    obtain ⟨a, s', hs1⟩ := eq_cons_of_ne_nil ih.1
    obtain ⟨b, t', hs2⟩ := eq_cons_of_ne_nil ih.2
    rw [drains, hs1, hs2, Stream'.Seq.map_cons, Stream'.Seq.map_cons]
    exact ⟨cons_ne_nil _ _, cons_ne_nil _ _⟩
  | cloned c ih => exact ih
  | copied c ih => exact ih
  | enumerate c ih =>
    exact ⟨seqEnumerate_ne_nil ih.1, seqEnumerate_ne_nil ih.1⟩
  | zip c d ihc ihd =>
    exact ⟨seqZip_ne_nil ihc.1 ihd.1, seqZip_ne_nil ihc.1 ihd.1⟩
  | take c n h ih => exact ⟨seqTake_ne_nil h ih.1, seqTake_ne_nil h ih.1⟩
  | stepBy c k h ih => exact ⟨seqStepBy_ne_nil k ih.1, seqStepBy_ne_nil k ih.1⟩
  | cycle c ih => exact ⟨seqCycle_ne_nil ih.1, seqCycle_ne_nil ih.1⟩
  | rev c ih => exact ⟨ih.2, ih.1⟩
  | fuse c ih => exact ih
  | inspect c ih => exact ih
  | flatMap c f ihc ihf =>
    exact ⟨seqFlatMap_ne_nil ihc.1 fun a => (ihf a).1,
      seqFlatMap_ne_nil ihc.1 fun a => (ihf a).1⟩
  | flatten c f ihc ihf =>
    exact ⟨seqFlatMap_ne_nil ihc.1 fun a => (ihf a).1,
      seqFlatMap_ne_nil ihc.1 fun a => (ihf a).1⟩
  | peeked c ih => exact ⟨ih.1, ih.1⟩

/-- C1: for every iterator chain built exclusively through the safe
structural constructors (never via `NonEmptyAdapter::new` directly),
downgrading the result with `into_iter` and draining it yields at least
one element: the first pull of the forward drain produces an item. -/
theorem safe_chain_drain_nonempty {de : Bool} {γ : Type} (c : NEChain de γ) :
    ∃ x rest, ((drains c).1).destruct = some (x, rest) := by
  obtain ⟨a, s', hs⟩ := eq_cons_of_ne_nil (drains_ne_nil c).1
  exact ⟨a, s', by rw [hs, Stream'.Seq.destruct_cons]⟩

end NonEmptyIter
